import Mathlib

/-!
Shallow embedding of the orchestrator core from src/orch.c.

The program is a single-threaded event-loop server.  We embed its job
lifecycle engine and node registry as pure Lean functions over an explicit
state record, and the event loop as a step function driven by a list of
environment actions (socket accepts, peer Register calls, disconnects,
client IsolateAll method calls, deferred-task dispatch, and delivery of
replies to outstanding asynchronous calls).

Machine integers: job ids are uint32 in C, embedded as Nat with an
explicit modulus 2 to the 32 at the increment site.  The outstanding
counter of an IsolateAll job is a C int, embedded as Int.

Assertion failures: orch.c uses assert, which aborts the process.  We
model this with an aborted flag; once it is set the process is dead and
every further step leaves the state unchanged.
-/

/-- States of a job: JOB_WAITING and JOB_RUNNING from types.h (the header
is not under src; the state set is taken from the specification, which
lists exactly Waiting and Running). -/
inductive JobState where
  | waiting
  | running
deriving DecidableEq

/-- Results of a job.  Modelled from the spec: types.h is not under src;
the specification lists the result set as Done, Failed, Cancelled, Timeout
with Done as the zero value (jobs are allocated with malloc0, and the spec
notes that the zero value stringifies to done). -/
inductive JobResult where
  | done
  | failed
  | cancelled
  | timeout
deriving DecidableEq

/-- Modelled from the spec: job_result_to_string from types.h (not under
src); the spec gives the mapping Done to done, Failed to failed,
Cancelled to cancelled, Timeout to timeout. -/
def job_result_to_string : JobResult → String
  | .done => "done"
  | .failed => "failed"
  | .cancelled => "cancelled"
  | .timeout => "timeout"

/-- Modelled from the spec: the jobs object path base
(ORCHESTRATOR_JOBS_OBJECT_PATH_PREFIX in orch.h, which is not under src).
The claims depend only on paths being derived as base slash id, not on the
exact constant. -/
def JOBS_OBJECT_PATH_BASE : String := "/org/orch/jobs"

/-- Modelled from the spec: the nodes object path base
(ORCHESTRATOR_NODES_OBJECT_PATH_PREFIX in orch.h, which is not under src). -/
def NODES_OBJECT_PATH_BASE : String := "/org/orch/nodes"

/-- Object path of a job, as built by asprintf in job_new. -/
def jobsPath (id : Nat) : String := JOBS_OBJECT_PATH_BASE ++ "/" ++ toString id

/-- Object path of a node, as built by asprintf in
method_peer_orchestrator_register. -/
def nodesPath (name : String) : String := NODES_OBJECT_PATH_BASE ++ "/" ++ name

/-- A Node session (struct Node): the registered name is NULL until
Register succeeds; the object path is set together with the name.  The
peer connection handle and bus slots carry no state the claims depend on
and are not embedded. -/
structure MNode where
  name : Option String
  object_path : Option String
deriving DecidableEq

/-- A Job (struct Job plus the IsolateAllJob payload; IsolateAll is the
only job type in the source, so the payload fields target and outstanding
are inlined).  ref_count mirrors the manual reference counting of the C
code. -/
structure MJob where
  id : Nat
  object_path : String
  state : JobState
  result : JobResult
  ref_count : Nat
  target : String
  outstanding : Int
deriving DecidableEq

/-- Pending deferred event source: orch job_source points at either the
deferred start task (start_job_cb) or the deferred finish task
(finish_job_cb). -/
inductive Deferred where
  | startCb
  | finishCb
deriving DecidableEq

/-- Externally observable events, in emission order: the JobNew and
JobRemoved signals, the State properties-changed signal, the method reply
to IsolateAll, and the outbound asynchronous Isolate call to a node. -/
inductive Event where
  | jobNew (id : Nat) (path : String)
  | jobRemoved (id : Nat) (path : String) (result : String)
  | stateChanged (path : String)
  | methodReply (path : String)
  | isolateCall (node : MNode) (target : String)
deriving DecidableEq

/-- The Orchestrator state (struct Orchestrator), together with the model
bookkeeping: pending holds the job id of each outstanding asynchronous
Isolate call whose completion handler has not yet run, events is the trace
of emitted signals and replies, and aborted records an assert failure. -/
structure Orch where
  next_job_id : Nat
  nodes : List MNode
  jobs : List MJob
  current_job : Option Nat
  job_source : Option Deferred
  pending : List Nat
  events : List Event
  aborted : Bool
deriving DecidableEq

/-- Initial state: main zero-initializes the Orchestrator struct. -/
def init : Orch :=
  { next_job_id := 0, nodes := [], jobs := [], current_job := none,
    job_source := none, pending := [], events := [], aborted := false }

/-- Modulus of the uint32 job id counter. -/
def U32 : Nat := 4294967296

/-- Increment of the uint32 counter: id = ++orch->next_job_id in job_new. -/
def mint (c : Nat) : Nat := (c + 1) % U32

/-- Lookup of a job by id in the queue; stands for following the C job
pointer, which always designates a job held by the queue. -/
def findJob (jobs : List MJob) (jid : Nat) : Option MJob :=
  jobs.find? (fun j => j.id == jid)

/-- Update of the job designated by jid; stands for a field store through
the C job pointer. -/
def updateJob (jobs : List MJob) (jid : Nat) (f : MJob → MJob) : List MJob :=
  jobs.map (fun j => if j.id == jid then f j else j)

/-- Removal of the job designated by jid from the queue:
LIST_REMOVE(jobs, orch->jobs, job) followed by job_unref in
orch_remove_job. -/
def removeJob (jobs : List MJob) (jid : Nat) : List MJob :=
  jobs.eraseP (fun j => j.id == jid)

/-- Transition into the aborted (process dead) state, modelling a failed
assert. -/
def abortNow (o : Orch) : Orch := { o with aborted := true }

/-- orch_find_node: linear scan returning the first node with a non-null
name equal (byte-exact) to the argument. -/
def orch_find_node (nodes : List MNode) (name : String) : Option MNode :=
  nodes.find? (fun n => n.name == some name)

/-- Reply of the Register method handler. -/
inductive RegReply where
  | ok
  | addressInUse
  | noMemory
deriving DecidableEq

/-- method_peer_orchestrator_register, acting on the registry with the
calling node given by its index.  s_ok models success of the strdup of
the name, a_ok success of the asprintf of the object path; the machine
semantics below passes true for both, the allocation-failure claims
instantiate them.  The none branch of the lookup is unreachable: the
userdata node of the handler is always a registry member. -/
def method_peer_orchestrator_register (nodes : List MNode) (i : Nat)
    (name : String) (s_ok a_ok : Bool) : List MNode × RegReply :=
  match nodes[i]? with
  | none => (nodes, .noMemory)
  | some node =>
    if node.name ≠ none then
      (nodes, .addressInUse)
    else if (orch_find_node nodes name).isSome then
      (nodes, .addressInUse)
    else if s_ok = false then
      (nodes, .noMemory)
    else
      let node1 : MNode := { node with name := some name }
      if a_ok = false then
        (nodes.set i node1, .noMemory)
      else
        (nodes.set i { node1 with object_path := some (nodesPath name) }, .ok)

/-- finish_job: asserts that the job is the current job and that no
transition task is pending, then registers the deferred finish task. -/
def finish_job (jid : Nat) (o : Orch) : Orch :=
  if o.current_job ≠ some jid then abortNow o
  else if o.job_source ≠ none then abortNow o
  else { o with job_source := some .finishCb }

/-- job_isolate_all, the start hook of an IsolateAll job: one asynchronous
Isolate call per node of the registry (each call appends a pending
completion and increments outstanding), then finish_job immediately if
outstanding is still zero.  The none branch of the job lookup is
unreachable: the hook receives the queued job. -/
def job_isolate_all (jid : Nat) (o : Orch) : Orch :=
  match findJob o.jobs jid with
  | none => o
  | some j =>
    let o1 : Orch :=
      { o with
        events := o.events ++ o.nodes.map (fun n => Event.isolateCall n j.target),
        pending := o.pending ++ o.nodes.map (fun _ => jid),
        jobs := updateJob o.jobs jid
          (fun k => { k with outstanding := k.outstanding + o.nodes.length }) }
    if j.outstanding + o.nodes.length = 0 then finish_job jid o1 else o1

/-- job_isolate_all_cb, the completion handler of one Isolate call:
decrements outstanding and calls finish_job when it reaches zero.  The
reply message (and in particular whether it carries an error) is never
inspected.  The none branch is unreachable: the userdata job of a pending
call is always queued. -/
def job_isolate_all_cb (jid : Nat) (o : Orch) : Orch :=
  match findJob o.jobs jid with
  | none => o
  | some j =>
    let o1 : Orch :=
      { o with jobs := (updateJob o.jobs jid
          (fun k => { k with outstanding := k.outstanding - 1 })) }
    if j.outstanding - 1 = 0 then finish_job jid o1 else o1

/-- try_start_job: if the queue is nonempty, make the head the current job
(taking a reference), set it running, emit the State properties-changed
signal, and invoke the start hook (always job_isolate_all, the only job
type). -/
def try_start_job (o : Orch) : Orch :=
  match o.jobs with
  | [] => o
  | j :: rest =>
    let o1 : Orch :=
      { o with
        jobs := { j with state := .running, ref_count := j.ref_count + 1 } :: rest,
        current_job := some j.id,
        events := o.events ++ [Event.stateChanged j.object_path] }
    job_isolate_all j.id o1

/-- start_job_cb, the deferred start task: invokes try_start_job and only
afterwards releases and clears job_source.  If an assert aborted inside
try_start_job the clearing line is never reached. -/
def start_job_cb (o : Orch) : Orch :=
  let o1 := try_start_job o
  if o1.aborted then o1 else { o1 with job_source := none }

/-- finish_job_cb, the deferred finish task: steals the current job
pointer (asserting it is non-null), emits JobRemoved, removes the job from
the queue, invokes try_start_job to pull the next job, and only afterwards
clears job_source.  The inner none branch is unreachable: the stolen
pointer designates the queued current job. -/
def finish_job_cb (o : Orch) : Orch :=
  match o.current_job with
  | none => abortNow o
  | some jid =>
    match findJob o.jobs jid with
    | none => abortNow o
    | some j =>
      let o1 : Orch :=
        { o with
          current_job := none,
          events := o.events ++
            [Event.jobRemoved j.id j.object_path (job_result_to_string j.result)],
          jobs := removeJob o.jobs jid }
      let o2 := try_start_job o1
      if o2.aborted then o2 else { o2 with job_source := none }

/-- schedule_job: no-op when a job is already running or a transition task
is already pending or the queue is empty; otherwise registers the deferred
start task. -/
def schedule_job (o : Orch) : Orch :=
  if o.current_job.isSome || o.job_source.isSome then o
  else if o.jobs.isEmpty then o
  else { o with job_source := some .startCb }

/-- orch_queue_job: allocate a fresh job (job_new: id = ++next_job_id,
object path base slash id, state Waiting, result zero = Done, one
reference), hand a second reference to the caller through job_out and a
third to the queue (the local reference of orch_queue_job is released on
return, leaving the count at two), append it to the queue, emit JobNew,
and call schedule_job.  Returns the new state and the id of the job. -/
def orch_queue_job (o : Orch) : Orch × Nat :=
  let id := mint o.next_job_id
  let job : MJob :=
    { id := id, object_path := jobsPath id, state := .waiting, result := .done,
      ref_count := 2, target := "", outstanding := 0 }
  let o1 : Orch :=
    { o with
      next_job_id := id,
      jobs := o.jobs ++ [job],
      events := o.events ++ [Event.jobNew id job.object_path] }
  (schedule_job o1, id)

/-- method_orchestrator_isolate_all: queue an IsolateAll job, retain the
source message and borrow the target string from it, reply with the job
object path, and release the job_out reference when the handler returns. -/
def method_orchestrator_isolate_all (target : String) (o : Orch) : Orch :=
  let q := orch_queue_job o
  let o1 := q.1
  let jid := q.2
  let o2 : Orch :=
    { o1 with jobs := updateJob o1.jobs jid (fun k => { k with target := target }) }
  let o3 : Orch :=
    { o2 with events := o2.events ++ [Event.methodReply (jobsPath jid)] }
  { o3 with jobs := (updateJob o3.jobs jid
      (fun k => { k with ref_count := k.ref_count - 1 })) }

/-- Environment actions driving the event loop: a socket accept
(accept_handler), a Register call from the peer at index i, a peer
disconnect (node_disconnected), a client IsolateAll method call, the
dispatch of the pending deferred task, and the delivery (reply, error
reply, or timeout) of the pending asynchronous call at index i. -/
inductive Act where
  | accept
  | register (i : Nat) (name : String)
  | disconnect (i : Nat)
  | methodCall (target : String)
  | runDeferred
  | deliverReply (i : Nat) (isError : Bool)
deriving DecidableEq

/-- One event-loop dispatch.  A dead (aborted) process performs no further
work.  deliverReply consumes the pending completion and runs
job_isolate_all_cb; the error flag of the reply is passed but, exactly as
in the C handler, never read. -/
def step (o : Orch) (a : Act) : Orch :=
  if o.aborted then o else
  match a with
  | .accept =>
      { o with nodes := o.nodes ++ [{ name := none, object_path := none }] }
  | .register i name =>
      { o with nodes := (method_peer_orchestrator_register o.nodes i name true true).1 }
  | .disconnect i =>
      { o with nodes := o.nodes.eraseIdx i }
  | .methodCall target =>
      method_orchestrator_isolate_all target o
  | .runDeferred =>
      match o.job_source with
      | none => o
      | some .startCb => start_job_cb o
      | some .finishCb => finish_job_cb o
  | .deliverReply i _isError =>
      match o.pending[i]? with
      | none => o
      | some jid => job_isolate_all_cb jid { o with pending := o.pending.eraseIdx i }

/-- Execution of a list of environment actions from a state. -/
def run (o : Orch) (acts : List Act) : Orch := acts.foldl step o

/-- Modelled from the spec: the deferred start task as section 4.5 words
it, clearing job_source first and only then invoking try_start.
Comparison variant for the transition-ordering claim; the code under src
clears job_source only after try_start_job has returned. -/
def start_job_cb_specorder (o : Orch) : Orch :=
  try_start_job { o with job_source := none }

/-- Modelled from the spec: the deferred finish task as section 4.5 words
it, which steals the current job, emits JobRemoved, removes the job,
clears job_source, and only then calls try_start to pull the next job.
Comparison variant for the transition-ordering claim. -/
def finish_job_cb_specorder (o : Orch) : Orch :=
  match o.current_job with
  | none => abortNow o
  | some jid =>
    match findJob o.jobs jid with
    | none => abortNow o
    | some j =>
      try_start_job
        { o with
          current_job := none,
          events := o.events ++
            [Event.jobRemoved j.id j.object_path (job_result_to_string j.result)],
          jobs := removeJob o.jobs jid,
          job_source := none }

/-- Counter value after n id mints, starting from the zero-initialized
counter of main. -/
def counter_after : Nat → Nat
  | 0 => 0
  | n + 1 => mint (counter_after n)

/-- Ids assigned to the first n jobs created in one run. -/
def job_ids (n : Nat) : List Nat :=
  (List.range n).map (fun i => counter_after (i + 1))

/-- Recognizer of a JobRemoved event. -/
def isJobRemovedEvent : Event → Bool
  | .jobRemoved _ _ _ => true
  | _ => false

/-- Recognizer of events whose JobRemoved result string is done; true on
every other event kind. -/
def removedDone : Event → Bool
  | .jobRemoved _ _ r => r == "done"
  | _ => true

/-- Recognizer of the JobRemoved event of the job with the given id. -/
def isRemovedOf (jid : Nat) : Event → Bool
  | .jobRemoved i _ _ => i == jid
  | _ => false

/-- Recognizer of start-hook activity of a given job: its State
properties-changed signal or an Isolate dispatch carrying its target. -/
def isStartOf (path : String) (target : String) : Event → Bool
  | .stateChanged p => p == path
  | .isolateCall _ t => t == target
  | _ => false

/-- Projection of a job to the data the scheduling invariants read. -/
def idst (j : MJob) : Nat × JobState := (j.id, j.state)

/-- Projection of the queue. -/
def projJobs (o : Orch) : List (Nat × JobState) := o.jobs.map idst

/-- Invariant piece: every job behind the head of the queue is Waiting. -/
def tailWaitingP (l : List (Nat × JobState)) : Prop :=
  ∀ x ∈ l.tail, x.2 = JobState.waiting

/-- Invariant piece: a Running job is designated by current_job. -/
def runCurP (l : List (Nat × JobState)) (c : Option Nat) : Prop :=
  ∀ x ∈ l, x.2 = JobState.running → c = some x.1

/-- Invariant piece: a non-null current_job designates the queue head,
which is Running. -/
def curHeadP (l : List (Nat × JobState)) (c : Option Nat) : Prop :=
  ∀ jid, c = some jid → ∃ rest, l = (jid, JobState.running) :: rest

/-- Invariant piece: a pending deferred start task implies no current
job. -/
def startIdle (o : Orch) : Prop :=
  o.job_source = some Deferred.startCb → o.current_job = none

/-- Claim-facing invariant piece: every Running job is the current job. -/
def runningIsCurrent (o : Orch) : Prop :=
  ∀ j ∈ o.jobs, j.state = JobState.running → o.current_job = some j.id

/-- Claim-facing invariant piece: at most one job is Running. -/
def atMostOneRunning (o : Orch) : Prop :=
  (o.jobs.filter (fun j => j.state == JobState.running)).length ≤ 1

/-- Full inductive scheduling invariant: only the head of the queue can
be Running, a Running job is the current job, the current job is the
Running head, and - while the process is live - a pending deferred start
task implies no current job. -/
def SchedInv (o : Orch) : Prop :=
  tailWaitingP (projJobs o) ∧ runCurP (projJobs o) o.current_job ∧
    curHeadP (projJobs o) o.current_job ∧ (o.aborted = false → startIdle o)

/-- Result-tracking invariant: no code path ever writes the result field,
so every queued job still carries the default Done and every JobRemoved
signal ever emitted carries the string done. -/
def ResultsInv (o : Orch) : Prop :=
  (∀ r ∈ o.jobs.map (fun j => j.result), r = JobResult.done) ∧
    (∀ e ∈ o.events, removedDone e = true)

/-- Concrete registry for witnesses: node 0 registered as A, node 1 still
nameless. -/
def regNodesW : List MNode :=
  [{ name := some "A", object_path := some (nodesPath "A") },
   { name := none, object_path := none }]

/-- Concrete nameless node for witnesses: entry 1 of regNodesW. -/
def regNodeW : MNode := { name := none, object_path := none }

/-- Concrete state for the fan-out witnesses: one named and one nameless
node in the registry, one queued job that try_start has just made current
and Running, its start hook about to run. -/
def fanOrchW : Orch :=
  { next_job_id := 1,
    nodes := regNodesW,
    jobs := [{ id := 1, object_path := jobsPath 1, state := JobState.running,
               result := JobResult.done, ref_count := 2, target := "t",
               outstanding := 0 }],
    current_job := some 1,
    job_source := none,
    pending := [],
    events := [],
    aborted := false }

/-- The queued job of fanOrchW. -/
def fanJobW : MJob :=
  { id := 1, object_path := jobsPath 1, state := JobState.running,
    result := JobResult.done, ref_count := 2, target := "t", outstanding := 0 }

/-- Values of the id counter stay equal to the number of mints while below
the uint32 modulus. -/
lemma counter_after_eq (k : Nat) (h : k < U32) : counter_after k = k := by
  induction k with
  | zero => rfl
  | succ m ih =>
    have hm : m < U32 := Nat.lt_of_succ_lt h
    have hstep : counter_after (m + 1) = mint (counter_after m) := rfl
    rw [hstep, ih hm, mint, Nat.mod_eq_of_lt h]

/-- C9: job ids are minted by pre-incrementing a counter that main
zero-initializes, so in any run creating n jobs with n below 2 to the 32
(the spec declares uint32 overflow out of scope) the assigned ids are
exactly the sequence 1, 2, ..., n: the first id is 1, every id is
non-zero, and successive ids strictly increase and are never reused. -/
theorem C9_ids_monotone (n : Nat) (h : n < U32) :
    job_ids n = List.range' 1 n ∧
    (∀ x ∈ job_ids n, x ≠ 0) ∧
    List.Pairwise (· < ·) (job_ids n) ∧
    (n ≠ 0 → (job_ids n).head? = some 1) := by
  have heq : job_ids n = List.range' 1 n := by
    rw [job_ids, List.range'_eq_map_range]
    refine List.map_congr_left ?_
    intro i hi
    have hi2 : i + 1 < U32 :=
      Nat.lt_of_le_of_lt (Nat.succ_le_of_lt (List.mem_range.mp hi)) h
    rw [counter_after_eq _ hi2, Nat.add_comm]
  refine ⟨heq, ?_, ?_, ?_⟩
  · intro x hx
    rw [heq] at hx
    have h1 := (List.mem_range'_1.mp hx).1
    omega
  · rw [heq]
    exact List.pairwise_lt_range' 1 n
  · intro hn
    rw [heq]
    cases n with
    | zero => exact absurd rfl hn
    | succ m => simp [List.range'_succ]

/-- Witness for C9 at n = 3. -/
theorem C9_ids_monotone_witness :
    3 < U32 ∧
      (job_ids 3 = List.range' 1 3 ∧
        (∀ x ∈ job_ids 3, x ≠ 0) ∧
        List.Pairwise (· < ·) (job_ids 3) ∧
        (3 ≠ 0 → (job_ids 3).head? = some 1)) :=
  ⟨by decide, C9_ids_monotone 3 (by decide)⟩

/-- C7: Register replies AddressInUse exactly when the calling node
already has a name or some node of the registry already has the requested
name (byte-exact string comparison); on that failure the registry is
returned unchanged (same size and contents, no name assigned), and if the
calling node was nameless a later Register on the same connection with a
fresh name succeeds and assigns that name and the derived object path. -/
theorem C7_register_conflict (nodes : List MNode) (i : Nat) (name name2 : String)
    (s_ok a_ok : Bool) (node : MNode) (hget : nodes[i]? = some node) :
    ((method_peer_orchestrator_register nodes i name s_ok a_ok).2 =
        RegReply.addressInUse ↔
      (node.name ≠ none ∨ (orch_find_node nodes name).isSome = true)) ∧
    ((method_peer_orchestrator_register nodes i name s_ok a_ok).2 =
        RegReply.addressInUse →
      (method_peer_orchestrator_register nodes i name s_ok a_ok).1 = nodes) ∧
    ((method_peer_orchestrator_register nodes i name s_ok a_ok).2 =
        RegReply.addressInUse →
      node.name = none → orch_find_node nodes name2 = none →
      (method_peer_orchestrator_register nodes i name2 true true).2 = RegReply.ok ∧
      (method_peer_orchestrator_register nodes i name2 true true).1[i]? =
        some { name := some name2, object_path := some (nodesPath name2) }) := by
  obtain ⟨hlt, -⟩ := List.getElem?_eq_some.mp hget
  by_cases h1 : node.name = none
  · by_cases h2 : (orch_find_node nodes name).isSome = true
    · refine ⟨by simp [method_peer_orchestrator_register, hget, h1, h2], ?_, ?_⟩
      · intro _
        simp [method_peer_orchestrator_register, hget, h1, h2]
      · intro _ _ hf2
        have hf2s : (orch_find_node nodes name2).isSome = false := by
          rw [hf2]; rfl
        constructor
        · simp [method_peer_orchestrator_register, hget, h1, hf2s]
        · simp only [method_peer_orchestrator_register, hget, h1, hf2s]
          simp only [ne_eq, not_true_eq_false, if_false, Bool.false_eq_true,
            if_neg, reduceIte]
          exact List.getElem?_set_self hlt
    · have h2f : (orch_find_node nodes name).isSome = false := by
        cases hb : (orch_find_node nodes name).isSome
        · rfl
        · exact absurd hb h2
      refine ⟨?_, ?_, ?_⟩
      · cases s_ok <;> cases a_ok <;>
          simp [method_peer_orchestrator_register, hget, h1, h2f]
      · intro hcontra
        exfalso
        cases s_ok <;> cases a_ok <;>
          simp [method_peer_orchestrator_register, hget, h1, h2f] at hcontra
      · intro hcontra
        exfalso
        cases s_ok <;> cases a_ok <;>
          simp [method_peer_orchestrator_register, hget, h1, h2f] at hcontra
  · refine ⟨by simp [method_peer_orchestrator_register, hget, h1], ?_, ?_⟩
    · intro _
      simp [method_peer_orchestrator_register, hget, h1]
    · intro _ hnone _
      exact absurd hnone h1

/-- Witness for C7: the nameless node 1 asks for the name A already held
by node 0 and gets AddressInUse with the registry unchanged; the fresh
name B then succeeds. -/
theorem C7_register_conflict_witness :
    regNodesW[1]? = some regNodeW ∧
    (((method_peer_orchestrator_register regNodesW 1 "A" true true).2 =
          RegReply.addressInUse ↔
        (regNodeW.name ≠ none ∨ (orch_find_node regNodesW "A").isSome = true)) ∧
      ((method_peer_orchestrator_register regNodesW 1 "A" true true).2 =
          RegReply.addressInUse →
        (method_peer_orchestrator_register regNodesW 1 "A" true true).1 = regNodesW) ∧
      ((method_peer_orchestrator_register regNodesW 1 "A" true true).2 =
          RegReply.addressInUse →
        regNodeW.name = none → orch_find_node regNodesW "B" = none →
        (method_peer_orchestrator_register regNodesW 1 "B" true true).2 =
          RegReply.ok ∧
        (method_peer_orchestrator_register regNodesW 1 "B" true true).1[1]? =
          some { name := some "B", object_path := some (nodesPath "B") })) :=
  ⟨by decide, C7_register_conflict regNodesW 1 "A" "B" true true regNodeW (by decide)⟩

/-- C10: when Register passes both conflict checks, stores the name, and
then fails with NoMemory while allocating the object path, the node keeps
the stored name: the registry now yields it to orch_find_node under that
name, and every later Register call on the same connection replies
AddressInUse whatever name and allocation outcomes it comes with. -/
theorem C10_register_partial_failure (nodes : List MNode) (i : Nat)
    (name name2 : String) (s2 a2 : Bool) (node : MNode)
    (hget : nodes[i]? = some node) (hname : node.name = none)
    (hfind : orch_find_node nodes name = none) :
    (method_peer_orchestrator_register nodes i name true false).2 =
      RegReply.noMemory ∧
    (method_peer_orchestrator_register nodes i name true false).1[i]? =
      some { node with name := some name } ∧
    (orch_find_node (method_peer_orchestrator_register nodes i name true false).1
        name).isSome = true ∧
    (method_peer_orchestrator_register
        (method_peer_orchestrator_register nodes i name true false).1
        i name2 s2 a2).2 = RegReply.addressInUse := by
  obtain ⟨hlt, -⟩ := List.getElem?_eq_some.mp hget
  have hfs : (orch_find_node nodes name).isSome = false := by
    rw [hfind]; rfl
  have hres : method_peer_orchestrator_register nodes i name true false =
      (nodes.set i { node with name := some name }, RegReply.noMemory) := by
    simp [method_peer_orchestrator_register, hget, hname, hfs]
  refine ⟨by rw [hres], ?_, ?_, ?_⟩
  · rw [hres]
    exact List.getElem?_set_self hlt
  · rw [hres]
    rw [orch_find_node, List.find?_isSome]
    exact ⟨{ node with name := some name },
      List.mem_set nodes i hlt { node with name := some name }, by simp⟩
  · rw [hres]
    have hget2 : (nodes.set i { node with name := some name })[i]? =
        some { node with name := some name } := List.getElem?_set_self hlt
    simp [method_peer_orchestrator_register, hget2]

/-- Witness for C10: node 1 of the registry registers the fresh name B
with the object path allocation failing. -/
theorem C10_register_partial_failure_witness :
    regNodesW[1]? = some regNodeW ∧ regNodeW.name = none ∧
    orch_find_node regNodesW "B" = none ∧
    ((method_peer_orchestrator_register regNodesW 1 "B" true false).2 =
        RegReply.noMemory ∧
      (method_peer_orchestrator_register regNodesW 1 "B" true false).1[1]? =
        some { regNodeW with name := some "B" } ∧
      (orch_find_node (method_peer_orchestrator_register regNodesW 1 "B" true false).1
          "B").isSome = true ∧
      (method_peer_orchestrator_register
          (method_peer_orchestrator_register regNodesW 1 "B" true false).1
          1 "C" true true).2 = RegReply.addressInUse) :=
  ⟨by decide, by decide, by decide,
    C10_register_partial_failure regNodesW 1 "B" "C" true true regNodeW
      (by decide) (by decide) (by decide)⟩

/-- schedule_job leaves the trace untouched. -/
lemma schedule_job_events (o : Orch) : (schedule_job o).events = o.events := by
  unfold schedule_job
  split
  · rfl
  · split <;> rfl

/-- schedule_job leaves the queue untouched. -/
lemma schedule_job_jobs (o : Orch) : (schedule_job o).jobs = o.jobs := by
  unfold schedule_job
  split
  · rfl
  · split <;> rfl

/-- Trace effect of the IsolateAll method handler: the JobNew signal with
the fresh id and object path, then the method reply carrying the same
path. -/
lemma method_isolate_all_events (o : Orch) (target : String) :
    (method_orchestrator_isolate_all target o).events =
      o.events ++
        [Event.jobNew (mint o.next_job_id) (jobsPath (mint o.next_job_id)),
         Event.methodReply (jobsPath (mint o.next_job_id))] := by
  simp [method_orchestrator_isolate_all, orch_queue_job, schedule_job_events]

/-- C8: a successful IsolateAll method call appends to the trace exactly
the JobNew signal carrying the fresh job id and object path, followed by
the method reply carrying the same object path: JobNew is emitted during
enqueue, strictly before the reply is sent to the client. -/
theorem C8_jobnew_before_reply (o : Orch) (target : String) :
    (method_orchestrator_isolate_all target o).events =
      o.events ++
        [Event.jobNew (mint o.next_job_id) (jobsPath (mint o.next_job_id)),
         Event.methodReply (jobsPath (mint o.next_job_id))] :=
  method_isolate_all_events o target

/-- finish_job leaves the trace untouched (it only checks the asserts and
registers the deferred finish task). -/
lemma finish_job_events (jid : Nat) (o : Orch) :
    (finish_job jid o).events = o.events := by
  unfold finish_job
  split
  · rfl
  · split <;> rfl

/-- finish_job leaves the queue untouched. -/
lemma finish_job_jobs (jid : Nat) (o : Orch) :
    (finish_job jid o).jobs = o.jobs := by
  unfold finish_job
  split
  · rfl
  · split <;> rfl

/-- Projections through updateJob are unchanged when the update does not
touch the projected field. -/
lemma map_updateJob (l : List MJob) (jid : Nat) (f : MJob → MJob)
    {β : Type} (g : MJob → β) (hg : ∀ k, g (f k) = g k) :
    (updateJob l jid f).map g = l.map g := by
  unfold updateJob
  rw [List.map_map]
  refine List.map_congr_left ?_
  intro k _
  by_cases hk : (k.id == jid) = true
  · simp only [Function.comp_apply, hk, if_true, hg]
  · simp only [Function.comp_apply, hk, if_false, Bool.false_eq_true]

/-- C5 (amended): the IsolateAll start hook dispatches exactly one
asynchronous Isolate call per node of the registry, in registry order,
whether the node is registered or still nameless: the events it appends
to the trace are precisely one isolateCall per registry entry, carrying
the target of the job. -/
theorem C5_dispatch_per_registry_node (o : Orch) (jid : Nat) (j : MJob)
    (hfind : findJob o.jobs jid = some j) :
    (job_isolate_all jid o).events =
      o.events ++ o.nodes.map (fun n => Event.isolateCall n j.target) := by
  simp only [job_isolate_all, hfind]
  split
  · rw [finish_job_events]
  · rfl

/-- Witness for C5 (amended) at the concrete state fanOrchW. -/
theorem C5_dispatch_per_registry_node_witness :
    findJob fanOrchW.jobs 1 = some fanJobW ∧
    (job_isolate_all 1 fanOrchW).events =
      fanOrchW.events ++
        fanOrchW.nodes.map (fun n => Event.isolateCall n fanJobW.target) :=
  ⟨by decide, C5_dispatch_per_registry_node fanOrchW 1 fanJobW (by decide)⟩

/-- C5 (counterexample): with a single accepted but never registered
(hence nameless) node in the registry, the IsolateAll start hook does
send the Isolate call to that nameless node, refuting the claim that no
call goes to an accepted-but-unregistered node. -/
theorem C5_nameless_node_receives_call :
    Event.isolateCall { name := none, object_path := none } "t" ∈
      (run init [Act.accept, Act.methodCall "t", Act.runDeferred]).events := by
  decide

/-- C6 (amended): dispatching the per-node calls takes no reference to
the Job: job_isolate_all leaves the reference count of every queued job
unchanged, because the userdata handed to the asynchronous call is the
bare job pointer without a job_ref (the source marks the spot with a TODO
about the unretained slot).  The references that exist are those of the
queue and of current_job, not one per outstanding call. -/
theorem C6_no_ref_per_call (o : Orch) (jid : Nat) :
    (job_isolate_all jid o).jobs.map (fun j => j.ref_count) =
      o.jobs.map (fun j => j.ref_count) := by
  cases hf : findJob o.jobs jid with
  | none => simp only [job_isolate_all, hf]
  | some j =>
    simp only [job_isolate_all, hf]
    split
    · rw [finish_job_jobs]
      exact map_updateJob _ _ _ _ (fun k => rfl)
    · exact map_updateJob _ _ _ _ (fun k => rfl)

/-- C6 (counterexample): in fanOrchW the start hook issues two calls, one
per registry node; afterwards the job has outstanding = 2 with two
pending completion handlers, yet its reference count is still 2 (the
queue reference and the current_job reference), not 2 plus outstanding,
so the pending completion handlers hold no counted reference. -/
theorem C6_ref_count_cex :
    findJob (job_isolate_all 1 fanOrchW).jobs 1 =
      some { fanJobW with outstanding := 2 } ∧
    (job_isolate_all 1 fanOrchW).pending = [1, 1] ∧
    ({ fanJobW with outstanding := 2 }).ref_count = 2 ∧
    ¬(({ fanJobW with outstanding := 2 }).ref_count ≥
        2 + ({ fanJobW with outstanding := 2 }).outstanding.toNat) := by
  decide

/-- C1 (counterexample): one registered node; the single Isolate reply is
delivered as an error reply, yet the run completes without abort and its
full trace ends with JobRemoved carrying the result string done: an
errored reply does not set the result of the job to Failed. -/
theorem C1_error_reply_removed_done :
    (run init [Act.accept, Act.register 0 "A", Act.methodCall "t",
        Act.runDeferred, Act.deliverReply 0 true, Act.runDeferred]).events =
      [Event.jobNew 1 (jobsPath 1), Event.methodReply (jobsPath 1),
       Event.stateChanged (jobsPath 1),
       Event.isolateCall { name := some "A", object_path := some (nodesPath "A") } "t",
       Event.jobRemoved 1 (jobsPath 1) "done"] ∧
    (run init [Act.accept, Act.register 0 "A", Act.methodCall "t",
        Act.runDeferred, Act.deliverReply 0 true, Act.runDeferred]).aborted =
      false := by
  decide

/-- C2: the failing input is IsolateAll with zero registered nodes.  The
deferred start task runs the start hook, which calls finish_job while
job_source still holds the start source; the assert on job_source being
null fails and the process aborts: the job is never removed, no
JobRemoved is emitted, against the claimed Waiting to Running to
removed-with-done completion within two event-loop iterations. -/
theorem C2_zero_nodes_abort :
    (run init [Act.methodCall "t", Act.runDeferred]).aborted = true ∧
    (run init [Act.methodCall "t", Act.runDeferred]).jobs.length = 1 ∧
    (run init [Act.methodCall "t", Act.runDeferred]).job_source =
      some Deferred.startCb ∧
    (run init [Act.methodCall "t", Act.runDeferred]).events.all
      (fun e => !(isJobRemovedEvent e)) = true := by
  decide

/-- C3: both deferred transition callbacks invoke try_start_job first and
clear job_source only afterwards, so a start hook that finishes
synchronously observes job_source still set and trips the assert inside
finish_job; under the ordering the claim states (clear job_source first,
then try_start, following the spec wording, embedded as the specorder
variants) the very same states proceed without aborting and schedule the
deferred finish. -/
theorem C3_job_source_cleared_after_try_start :
    ((run init [Act.methodCall "t"]).job_source = some Deferred.startCb ∧
      (start_job_cb (run init [Act.methodCall "t"])).aborted = true ∧
      (start_job_cb_specorder (run init [Act.methodCall "t"])).aborted = false ∧
      (start_job_cb_specorder (run init [Act.methodCall "t"])).job_source =
        some Deferred.finishCb) ∧
    ((run init [Act.accept, Act.methodCall "t1", Act.methodCall "t2",
          Act.runDeferred, Act.disconnect 0,
          Act.deliverReply 0 false]).job_source = some Deferred.finishCb ∧
      (finish_job_cb (run init [Act.accept, Act.methodCall "t1",
          Act.methodCall "t2", Act.runDeferred, Act.disconnect 0,
          Act.deliverReply 0 false])).aborted = true ∧
      (finish_job_cb_specorder (run init [Act.accept, Act.methodCall "t1",
          Act.methodCall "t2", Act.runDeferred, Act.disconnect 0,
          Act.deliverReply 0 false])).aborted = false) := by
  decide

/-- Result projection through an outstanding increment. -/
lemma map_result_update_out_add (l : List MJob) (jid : Nat) (d : Int) :
    (updateJob l jid (fun k => { k with outstanding := k.outstanding + d })).map
        (fun j => j.result) =
      l.map (fun j => j.result) :=
  map_updateJob _ _ _ _ (fun _ => rfl)

/-- Result projection through an outstanding decrement. -/
lemma map_result_update_out_sub (l : List MJob) (jid : Nat) :
    (updateJob l jid (fun k => { k with outstanding := k.outstanding - 1 })).map
        (fun j => j.result) =
      l.map (fun j => j.result) :=
  map_updateJob _ _ _ _ (fun _ => rfl)

/-- Result projection through a target store. -/
lemma map_result_update_target (l : List MJob) (jid : Nat) (t : String) :
    (updateJob l jid (fun k => { k with target := t })).map (fun j => j.result) =
      l.map (fun j => j.result) :=
  map_updateJob _ _ _ _ (fun _ => rfl)

/-- Result projection through a reference release. -/
lemma map_result_update_rc (l : List MJob) (jid : Nat) :
    (updateJob l jid (fun k => { k with ref_count := k.ref_count - 1 })).map
        (fun j => j.result) =
      l.map (fun j => j.result) :=
  map_updateJob _ _ _ _ (fun _ => rfl)

/-- Result projection through the completion handler: job_isolate_all_cb
never writes the result field of any job. -/
lemma job_isolate_all_cb_results (jid : Nat) (o : Orch) :
    (job_isolate_all_cb jid o).jobs.map (fun j => j.result) =
      o.jobs.map (fun j => j.result) := by
  cases hf : findJob o.jobs jid with
  | none => simp only [job_isolate_all_cb, hf]
  | some j =>
    simp only [job_isolate_all_cb, hf]
    split
    · rw [finish_job_jobs]
      exact map_result_update_out_sub _ _
    · exact map_result_update_out_sub _ _

/-- Result projection through the IsolateAll method handler: a fresh Done
job is appended, existing results untouched. -/
lemma method_isolate_all_results (target : String) (o : Orch) :
    (method_orchestrator_isolate_all target o).jobs.map (fun j => j.result) =
      o.jobs.map (fun j => j.result) ++ [JobResult.done] := by
  simp only [method_orchestrator_isolate_all, orch_queue_job]
  rw [map_result_update_rc, map_result_update_target, schedule_job_jobs]
  simp

/-- ResultsInv survives finish_job. -/
lemma resultsInv_finish_job (jid : Nat) (o : Orch) (h : ResultsInv o) :
    ResultsInv (finish_job jid o) := by
  unfold finish_job abortNow
  split
  · simpa [ResultsInv] using h
  · split
    · simpa [ResultsInv] using h
    · simpa [ResultsInv] using h

/-- ResultsInv survives the start hook. -/
lemma resultsInv_job_isolate_all (jid : Nat) (o : Orch) (h : ResultsInv o) :
    ResultsInv (job_isolate_all jid o) := by
  cases hf : findJob o.jobs jid with
  | none => simp only [job_isolate_all, hf]; exact h
  | some j =>
    simp only [job_isolate_all, hf]
    have hbase : ResultsInv
        { o with
          events := o.events ++ o.nodes.map (fun n => Event.isolateCall n j.target),
          pending := o.pending ++ o.nodes.map (fun _ => jid),
          jobs := (updateJob o.jobs jid
            (fun k => { k with outstanding := k.outstanding + o.nodes.length })) } := by
      refine ⟨?_, ?_⟩
      · intro r hr
        have hr2 : r ∈ (updateJob o.jobs jid
            (fun k => { k with outstanding := k.outstanding + (o.nodes.length : Int) })).map
              (fun j => j.result) := hr
        rw [map_result_update_out_add] at hr2
        exact h.1 r hr2
      · intro e he
        rcases List.mem_append.mp he with h2 | h3
        · exact h.2 e h2
        · rcases List.mem_map.mp h3 with ⟨n, -, rfl⟩
          rfl
    split
    · exact resultsInv_finish_job _ _ hbase
    · exact hbase

/-- ResultsInv survives the completion handler. -/
lemma resultsInv_job_isolate_all_cb (jid : Nat) (o : Orch) (h : ResultsInv o) :
    ResultsInv (job_isolate_all_cb jid o) := by
  cases hf : findJob o.jobs jid with
  | none => simp only [job_isolate_all_cb, hf]; exact h
  | some j =>
    simp only [job_isolate_all_cb, hf]
    have hbase : ResultsInv
        { o with jobs := (updateJob o.jobs jid
            (fun k => { k with outstanding := k.outstanding - 1 })) } := by
      refine ⟨?_, h.2⟩
      intro r hr
      have hr2 : r ∈ (updateJob o.jobs jid
          (fun k => { k with outstanding := k.outstanding - 1 })).map
            (fun j => j.result) := hr
      rw [map_result_update_out_sub] at hr2
      exact h.1 r hr2
    split
    · exact resultsInv_finish_job _ _ hbase
    · exact hbase

/-- ResultsInv survives try_start_job. -/
lemma resultsInv_try_start_job (o : Orch) (h : ResultsInv o) :
    ResultsInv (try_start_job o) := by
  cases hjobs : o.jobs with
  | nil => simp only [try_start_job, hjobs]; exact h
  | cons j rest =>
    simp only [try_start_job, hjobs]
    apply resultsInv_job_isolate_all
    refine ⟨?_, ?_⟩
    · intro r hr
      rcases List.mem_cons.mp hr with rfl | hr2
      · refine h.1 j.result ?_
        rw [hjobs]
        exact List.mem_map.mpr ⟨j, List.mem_cons_self j rest, rfl⟩
      · refine h.1 r ?_
        rw [hjobs]
        rcases List.mem_map.mp hr2 with ⟨k, hk, rfl⟩
        exact List.mem_map.mpr ⟨k, List.mem_cons_of_mem j hk, rfl⟩
    · intro e he
      rcases List.mem_append.mp he with h2 | h3
      · exact h.2 e h2
      · rcases List.mem_singleton.mp h3 with rfl
        rfl

/-- ResultsInv survives the deferred start task. -/
lemma resultsInv_start_job_cb (o : Orch) (h : ResultsInv o) :
    ResultsInv (start_job_cb o) := by
  simp only [start_job_cb]
  have h1 := resultsInv_try_start_job o h
  split
  · exact h1
  · simpa [ResultsInv] using h1

/-- ResultsInv survives the deferred finish task: the emitted JobRemoved
signal carries the stringification of the result of the removed job,
which is Done. -/
lemma resultsInv_finish_job_cb (o : Orch) (h : ResultsInv o) :
    ResultsInv (finish_job_cb o) := by
  cases hc : o.current_job with
  | none =>
    simp only [finish_job_cb, hc, abortNow]
    simpa [ResultsInv] using h
  | some jid =>
    cases hf : findJob o.jobs jid with
    | none =>
      simp only [finish_job_cb, hc, hf, abortNow]
      simpa [ResultsInv] using h
    | some j =>
      simp only [finish_job_cb, hc, hf]
      have hjmem : j ∈ o.jobs := List.mem_of_find?_eq_some hf
      have hjr : j.result = JobResult.done :=
        h.1 j.result (List.mem_map.mpr ⟨j, hjmem, rfl⟩)
      have hbase : ResultsInv
          { o with
            current_job := none,
            events := o.events ++
              [Event.jobRemoved j.id j.object_path (job_result_to_string j.result)],
            jobs := removeJob o.jobs jid } := by
        refine ⟨?_, ?_⟩
        · intro r hr
          rcases List.mem_map.mp hr with ⟨k, hk, rfl⟩
          refine h.1 k.result (List.mem_map.mpr ⟨k, ?_, rfl⟩)
          exact List.mem_of_mem_eraseP hk
        · intro e he
          rcases List.mem_append.mp he with h2 | h3
          · exact h.2 e h2
          · rcases List.mem_singleton.mp h3 with rfl
            simp [removedDone, hjr, job_result_to_string]
      have h2 := resultsInv_try_start_job _ hbase
      split
      · exact h2
      · simpa [ResultsInv] using h2

/-- ResultsInv is preserved by every event-loop step. -/
lemma resultsInv_step (o : Orch) (a : Act) (h : ResultsInv o) :
    ResultsInv (step o a) := by
  unfold step
  split
  · exact h
  · cases a with
    | accept => simpa [ResultsInv] using h
    | register i name => simpa [ResultsInv] using h
    | disconnect i => simpa [ResultsInv] using h
    | methodCall target =>
      refine ⟨?_, ?_⟩
      · intro r hr
        rw [method_isolate_all_results] at hr
        rcases List.mem_append.mp hr with h2 | h3
        · exact h.1 r h2
        · rcases List.mem_singleton.mp h3 with rfl
          rfl
      · intro e he
        rw [method_isolate_all_events] at he
        rcases List.mem_append.mp he with h2 | h3
        · exact h.2 e h2
        · rcases List.mem_cons.mp h3 with rfl | h4
          · rfl
          · rcases List.mem_singleton.mp h4 with rfl
            rfl
    | runDeferred =>
      cases hs : o.job_source with
      | none => exact h
      | some d =>
        cases d with
        | startCb => exact resultsInv_start_job_cb o h
        | finishCb => exact resultsInv_finish_job_cb o h
    | deliverReply i isError =>
      dsimp only
      cases hp : o.pending[i]? with
      | none => exact h
      | some jid =>
        exact resultsInv_job_isolate_all_cb jid _ ⟨h.1, h.2⟩

/-- Invariants established at init are preserved along any run. -/
lemma run_preserve (P : Orch → Prop) (hstep : ∀ o a, P o → P (step o a)) :
    ∀ (acts : List Act) (o : Orch), P o → P (run o acts) := by
  intro acts
  induction acts with
  | nil => intro o h; exact h
  | cons a as ih =>
    intro o h
    exact ih (step o a) (hstep o a h)

/-- ResultsInv holds in every reachable state. -/
lemma resultsInv_run (acts : List Act) : ResultsInv (run init acts) := by
  refine run_preserve ResultsInv resultsInv_step acts init ⟨?_, ?_⟩
  · intro r hr
    simp [init] at hr
  · intro e he
    simp [init] at he

/-- C1 (amended): the per-node completion handler ignores the delivered
reply entirely: whatever the error flag of the reply, the handler step
leaves the result of every queued job unchanged; consequently, in every
reachable state every queued job still carries the default result Done
and every JobRemoved signal ever emitted carries the result string done,
so a job whose result is never explicitly set - which is every job,
errored replies included - is removed with result Done. -/
theorem C1_results_always_done :
    (∀ (o : Orch) (i : Nat) (e : Bool),
      (step o (Act.deliverReply i e)).jobs.map (fun j => j.result) =
        o.jobs.map (fun j => j.result)) ∧
    (∀ acts : List Act,
      ((run init acts).jobs.map (fun j => j.result)).all
          (fun r => r == JobResult.done) = true ∧
        (run init acts).events.all removedDone = true) := by
  constructor
  · intro o i e
    unfold step
    split
    · rfl
    · dsimp only
      cases hp : o.pending[i]? with
      | none => rfl
      | some jid => rw [job_isolate_all_cb_results]
  · intro acts
    have hinv := resultsInv_run acts
    constructor
    · rw [List.all_eq_true]
      intro r hr
      have hd := hinv.1 r hr
      subst hd
      rfl
    · rw [List.all_eq_true]
      exact hinv.2

/-- Id-and-state projection through an outstanding increment. -/
lemma map_idst_update_out_add (l : List MJob) (jid : Nat) (d : Int) :
    (updateJob l jid (fun k => { k with outstanding := k.outstanding + d })).map
        idst = l.map idst :=
  map_updateJob _ _ _ _ (fun _ => rfl)

/-- Id-and-state projection through an outstanding decrement. -/
lemma map_idst_update_out_sub (l : List MJob) (jid : Nat) :
    (updateJob l jid (fun k => { k with outstanding := k.outstanding - 1 })).map
        idst = l.map idst :=
  map_updateJob _ _ _ _ (fun _ => rfl)

/-- Id-and-state projection through a target store. -/
lemma map_idst_update_target (l : List MJob) (jid : Nat) (t : String) :
    (updateJob l jid (fun k => { k with target := t })).map idst = l.map idst :=
  map_updateJob _ _ _ _ (fun _ => rfl)

/-- Id-and-state projection through a reference release. -/
lemma map_idst_update_rc (l : List MJob) (jid : Nat) :
    (updateJob l jid (fun k => { k with ref_count := k.ref_count - 1 })).map
        idst = l.map idst :=
  map_updateJob _ _ _ _ (fun _ => rfl)

/-- A Running job is the current job, read back from the projection. -/
lemma runningIsCurrent_of_runCurP (o : Orch)
    (h : runCurP (projJobs o) o.current_job) : runningIsCurrent o := by
  intro j hj hrun
  exact h (idst j) (List.mem_map.mpr ⟨j, hj, rfl⟩) hrun

/-- At most one Running job, read back from the projection. -/
lemma atMostOne_of_tailWaitingP (o : Orch) (h : tailWaitingP (projJobs o)) :
    atMostOneRunning o := by
  unfold atMostOneRunning
  cases hjobs : o.jobs with
  | nil => simp
  | cons j rest =>
    have hfil : rest.filter (fun k => k.state == JobState.running) = [] := by
      rw [List.filter_eq_nil_iff]
      intro k hk
      have hx : idst k ∈ (projJobs o).tail := by
        unfold projJobs
        rw [hjobs]
        simp only [List.map_cons, List.tail_cons]
        exact List.mem_map.mpr ⟨k, hk, rfl⟩
      have h2 := h (idst k) hx
      simp only [idst] at h2
      simp [h2]
    rw [List.filter_cons, hfil]
    split <;> simp

/-- schedule_job leaves current_job untouched. -/
lemma schedule_job_current (o : Orch) :
    (schedule_job o).current_job = o.current_job := by
  unfold schedule_job
  split
  · rfl
  · split <;> rfl

/-- schedule_job leaves the aborted flag untouched. -/
lemma schedule_job_aborted (o : Orch) :
    (schedule_job o).aborted = o.aborted := by
  unfold schedule_job
  split
  · rfl
  · split <;> rfl

/-- schedule_job either leaves job_source alone or arms the deferred
start task, and it only arms it when no job is current. -/
lemma schedule_job_source (o : Orch) :
    (schedule_job o).job_source = o.job_source ∨
      ((schedule_job o).job_source = some Deferred.startCb ∧
        o.current_job = none) := by
  unfold schedule_job
  split
  · exact Or.inl rfl
  case isFalse hc =>
    split
    · exact Or.inl rfl
    · right
      refine ⟨rfl, ?_⟩
      cases hcur : o.current_job with
      | none => rfl
      | some v =>
        exfalso
        exact hc (by rw [hcur]; simp)

/-- An assert failure freezes the state, so the projection pieces carry
over; the start-idle piece holds vacuously in a dead process. -/
lemma schedInv_abortNow (o : Orch) (hW : tailWaitingP (projJobs o))
    (hC : runCurP (projJobs o) o.current_job)
    (hH : curHeadP (projJobs o) o.current_job) :
    SchedInv (abortNow o) :=
  ⟨hW, hC, hH, fun hf => absurd hf (by simp [abortNow])⟩

/-- When the job is current but a transition task is still pending,
finish_job trips its second assert. -/
lemma finish_job_aborts_of_source (jid : Nat) (o : Orch)
    (hc : o.current_job = some jid) (hs : o.job_source ≠ none) :
    finish_job jid o = abortNow o := by
  unfold finish_job
  rw [if_neg (by rw [hc]; simp), if_pos hs]

/-- SchedInv survives finish_job. -/
lemma schedInv_finish_job (jid : Nat) (o : Orch) (h : SchedInv o) :
    SchedInv (finish_job jid o) := by
  unfold finish_job
  split
  · exact schedInv_abortNow o h.1 h.2.1 h.2.2.1
  · split
    · exact schedInv_abortNow o h.1 h.2.1 h.2.2.1
    · exact ⟨h.1, h.2.1, h.2.2.1, fun _ hs => by simp at hs⟩

/-- Landing state of try_start_job followed by the late job_source clear:
valid for any post-dispatch state whose head job is Running and current,
whose remaining jobs are Waiting, and whose transition task is still
armed (so a synchronous finish aborts). -/
lemma schedInv_after_start (jid : Nat) (o2 : Orch) (cond : Prop)
    [Decidable cond] (hc2 : o2.current_job = some jid)
    (hs2 : o2.job_source ≠ none) (hab2 : o2.aborted = false)
    (tl : List (Nat × JobState))
    (hproj : projJobs o2 = (jid, JobState.running) :: tl)
    (htl : ∀ x ∈ tl, x.2 = JobState.waiting) :
    SchedInv (if (if cond then finish_job jid o2 else o2).aborted = true
      then (if cond then finish_job jid o2 else o2)
      else { (if cond then finish_job jid o2 else o2) with job_source := none }) := by
  have hC : runCurP (projJobs o2) o2.current_job := by
    intro x hx hxr
    rw [hproj] at hx
    rcases List.mem_cons.mp hx with rfl | hx2
    · rw [hc2]
    · rw [htl x hx2] at hxr
      cases hxr
  have hW : tailWaitingP (projJobs o2) := by
    intro x hx
    rw [hproj] at hx
    exact htl x (by simpa using hx)
  have hH : curHeadP (projJobs o2) o2.current_job := by
    intro jid2 hc3
    rw [hc2] at hc3
    injection hc3 with h5
    subst h5
    exact ⟨tl, hproj⟩
  by_cases hcond : cond
  · simp only [if_pos hcond]
    rw [finish_job_aborts_of_source jid o2 hc2 hs2]
    rw [if_pos (show (abortNow o2).aborted = true from rfl)]
    exact schedInv_abortNow o2 hW hC hH
  · simp only [if_neg hcond]
    rw [if_neg (show ¬(o2.aborted = true) by rw [hab2]; simp)]
    refine ⟨hW, hC, ?_, ?_⟩
    · intro jid2 hc3
      have hc4 : o2.current_job = some jid2 := hc3
      rw [hc2] at hc4
      injection hc4 with h5
      subst h5
      exact ⟨tl, hproj⟩
    · intro _ hs3
      exact absurd hs3 (by simp)

/-- Behaviour of the shared tail of both deferred transition callbacks:
try_start_job on an idle live state with only Waiting jobs and a still
armed transition task, followed by the late job_source clear. -/
lemma schedInv_try_start_then_clear (o : Orch) (hab : o.aborted = false)
    (hcur : o.current_job = none) (hsrc : o.job_source ≠ none)
    (hallW : ∀ x ∈ projJobs o, x.2 = JobState.waiting) :
    SchedInv (if (try_start_job o).aborted = true then try_start_job o
      else { try_start_job o with job_source := none }) := by
  cases hjobs : o.jobs with
  | nil =>
    have hts : try_start_job o = o := by simp only [try_start_job, hjobs]
    rw [hts, if_neg (show ¬(o.aborted = true) by rw [hab]; simp)]
    refine ⟨?_, ?_, ?_, ?_⟩
    · intro x hx
      exact hallW x (List.mem_of_mem_tail hx)
    · intro x hx hxr
      rw [hallW x hx] at hxr
      cases hxr
    · intro jid2 hc3
      have hc4 : o.current_job = some jid2 := hc3
      rw [hcur] at hc4
      cases hc4
    · intro _ hs3
      exact absurd hs3 (by simp)
  | cons j rest =>
    have hproj0 : projJobs o = idst j :: rest.map idst := by
      unfold projJobs
      rw [hjobs]
      rfl
    have hrestW : ∀ x ∈ rest.map idst, x.2 = JobState.waiting := by
      intro x hx
      refine hallW x ?_
      rw [hproj0]
      exact List.mem_cons_of_mem _ hx
    have hfind : findJob
        ({ j with state := JobState.running, ref_count := j.ref_count + 1 } :: rest)
          j.id =
        some { j with state := JobState.running, ref_count := j.ref_count + 1 } := by
      unfold findJob
      apply List.find?_cons_of_pos
      simp
    simp only [try_start_job, hjobs, job_isolate_all, hfind]
    apply schedInv_after_start j.id
    · rfl
    · exact hsrc
    · exact hab
    · show projJobs _ = (j.id, JobState.running) :: rest.map idst
      unfold projJobs
      show (updateJob
          ({ j with state := JobState.running, ref_count := j.ref_count + 1 } :: rest)
          j.id
          (fun k => { k with outstanding := k.outstanding + (o.nodes.length : Int) })).map
        idst = _
      rw [map_idst_update_out_add]
      rfl
    · exact hrestW

/-- SchedInv survives the deferred start task: the armed start source
implies an idle scheduler, so every queued job is Waiting when
try_start_job runs. -/
lemma schedInv_start_job_cb_ctx (o : Orch) (h : SchedInv o)
    (hab : o.aborted = false) (hsrcS : o.job_source = some Deferred.startCb) :
    SchedInv (start_job_cb o) := by
  have hcur : o.current_job = none := h.2.2.2 hab hsrcS
  have hallW : ∀ x ∈ projJobs o, x.2 = JobState.waiting := by
    intro x hx
    cases hst : x.2 with
    | waiting => rfl
    | running =>
      have h2 := h.2.1 x hx hst
      rw [hcur] at h2
      cases h2
  exact schedInv_try_start_then_clear o hab hcur (by rw [hsrcS]; simp) hallW

/-- SchedInv survives the deferred finish task: the Running head is
removed, leaving only Waiting jobs for the inner try_start_job. -/
lemma schedInv_finish_job_cb_ctx (o : Orch) (h : SchedInv o)
    (hab : o.aborted = false) (hsrcF : o.job_source = some Deferred.finishCb) :
    SchedInv (finish_job_cb o) := by
  cases hc : o.current_job with
  | none =>
    simp only [finish_job_cb, hc]
    exact schedInv_abortNow o h.1 h.2.1 h.2.2.1
  | some jid =>
    obtain ⟨ptl, hptl⟩ := h.2.2.1 jid hc
    cases hjobs : o.jobs with
    | nil =>
      exfalso
      unfold projJobs at hptl
      rw [hjobs] at hptl
      simp at hptl
    | cons jh rest =>
      have hptl2 : idst jh :: rest.map idst = (jid, JobState.running) :: ptl := by
        rw [← hptl]
        unfold projJobs
        rw [hjobs]
        rfl
      have hhead : idst jh = (jid, JobState.running) := by
        injection hptl2 with h1 h2
      have hid : jh.id = jid := congrArg Prod.fst hhead
      have hfind : findJob o.jobs jid = some jh := by
        unfold findJob
        rw [hjobs]
        apply List.find?_cons_of_pos
        simp [hid]
      have hrem : removeJob o.jobs jid = rest := by
        unfold removeJob
        rw [hjobs]
        apply List.eraseP_cons_of_pos
        simp [hid]
      simp only [finish_job_cb, hc, hfind]
      refine schedInv_try_start_then_clear _ hab rfl
        (show o.job_source ≠ none by rw [hsrcF]; simp) ?_
      intro x hx
      have hx2 : x ∈ rest.map idst := by
        have hpr : projJobs
            { o with
              current_job := none,
              events := o.events ++
                [Event.jobRemoved jh.id jh.object_path
                  (job_result_to_string jh.result)],
              jobs := removeJob o.jobs jid } = rest.map idst := by
          unfold projJobs
          show (removeJob o.jobs jid).map idst = rest.map idst
          rw [hrem]
        rw [hpr] at hx
        exact hx
      apply h.1
      have htl3 : (projJobs o).tail = rest.map idst := by
        unfold projJobs
        rw [hjobs]
        rfl
      rw [htl3]
      exact hx2

/-- SchedInv survives the completion handler: the outstanding decrement
does not change any id or state, and a possible finish_job call is
covered by its own lemma. -/
lemma schedInv_job_isolate_all_cb (jid : Nat) (o : Orch) (h : SchedInv o) :
    SchedInv (job_isolate_all_cb jid o) := by
  cases hf : findJob o.jobs jid with
  | none => simp only [job_isolate_all_cb, hf]; exact h
  | some j =>
    simp only [job_isolate_all_cb, hf]
    have hproj : projJobs { o with jobs := (updateJob o.jobs jid
        (fun k => { k with outstanding := k.outstanding - 1 })) } = projJobs o :=
      map_idst_update_out_sub o.jobs jid
    have hmid : SchedInv { o with jobs := (updateJob o.jobs jid
        (fun k => { k with outstanding := k.outstanding - 1 })) } := by
      refine ⟨?_, ?_, ?_, ?_⟩
      · rw [hproj]
        exact h.1
      · rw [hproj]
        exact h.2.1
      · rw [hproj]
        exact h.2.2.1
      · exact fun hf2 => h.2.2.2 hf2
    split
    · exact schedInv_finish_job jid _ hmid
    · exact hmid

/-- Projection of the queue through the IsolateAll method handler: the
fresh Waiting job is appended. -/
lemma method_isolate_all_proj (target : String) (o : Orch) :
    projJobs (method_orchestrator_isolate_all target o) =
      projJobs o ++ [(mint o.next_job_id, JobState.waiting)] := by
  unfold projJobs
  simp only [method_orchestrator_isolate_all, orch_queue_job]
  rw [map_idst_update_rc, map_idst_update_target, schedule_job_jobs]
  simp [idst]

/-- Scheduler fields through the IsolateAll method handler: current_job
and aborted are untouched; job_source is either untouched or armed with
the deferred start task, the latter only from an idle scheduler. -/
lemma method_isolate_all_state (target : String) (o : Orch) :
    (method_orchestrator_isolate_all target o).current_job = o.current_job ∧
    (method_orchestrator_isolate_all target o).aborted = o.aborted ∧
    ((method_orchestrator_isolate_all target o).job_source = o.job_source ∨
      ((method_orchestrator_isolate_all target o).job_source =
          some Deferred.startCb ∧ o.current_job = none)) := by
  simp only [method_orchestrator_isolate_all, orch_queue_job]
  refine ⟨?_, ?_, ?_⟩
  · rw [schedule_job_current]
  · rw [schedule_job_aborted]
  · rcases schedule_job_source
        { o with
          next_job_id := mint o.next_job_id,
          jobs := o.jobs ++
            [{ id := mint o.next_job_id,
               object_path := jobsPath (mint o.next_job_id),
               state := JobState.waiting, result := JobResult.done,
               ref_count := 2, target := "", outstanding := 0 }],
          events := o.events ++
            [Event.jobNew (mint o.next_job_id) (jobsPath (mint o.next_job_id))] }
      with h1 | ⟨h1, h2⟩
    · exact Or.inl h1
    · exact Or.inr ⟨h1, h2⟩

/-- SchedInv survives the IsolateAll method handler. -/
lemma schedInv_method (target : String) (o : Orch) (h : SchedInv o) :
    SchedInv (method_orchestrator_isolate_all target o) := by
  obtain ⟨hcur, habm, hsrc⟩ := method_isolate_all_state target o
  have hproj := method_isolate_all_proj target o
  refine ⟨?_, ?_, ?_, ?_⟩
  · intro x hx
    rw [hproj] at hx
    cases hpo : projJobs o with
    | nil =>
      rw [hpo] at hx
      simp at hx
    | cons y ys =>
      rw [hpo] at hx
      simp only [List.cons_append, List.tail_cons] at hx
      rcases List.mem_append.mp hx with h1 | h2
      · refine h.1 x ?_
        rw [hpo]
        exact h1
      · rcases List.mem_singleton.mp h2 with rfl
        rfl
  · intro x hx hxr
    rw [hproj] at hx
    rcases List.mem_append.mp hx with h1 | h2
    · rw [hcur]
      exact h.2.1 x h1 hxr
    · rcases List.mem_singleton.mp h2 with rfl
      cases hxr
  · intro jid2 hc3
    rw [hcur] at hc3
    obtain ⟨rest2, hrest2⟩ := h.2.2.1 jid2 hc3
    rw [hproj, hrest2]
    exact ⟨rest2 ++ [(mint o.next_job_id, JobState.waiting)], rfl⟩
  · intro hab2 hs
    rw [hcur]
    rcases hsrc with h1 | ⟨h1, h2⟩
    · rw [h1] at hs
      exact h.2.2.2 (habm ▸ hab2) hs
    · exact h2

/-- SchedInv is preserved by every event-loop step. -/
lemma schedInv_step (o : Orch) (a : Act) (h : SchedInv o) :
    SchedInv (step o a) := by
  unfold step
  split
  · exact h
  case isFalse hab0 =>
    have hab : o.aborted = false := by
      cases hb : o.aborted
      · rfl
      · exact absurd hb hab0
    cases a with
    | accept => exact ⟨h.1, h.2.1, h.2.2.1, fun hf => h.2.2.2 hf⟩
    | register i name => exact ⟨h.1, h.2.1, h.2.2.1, fun hf => h.2.2.2 hf⟩
    | disconnect i => exact ⟨h.1, h.2.1, h.2.2.1, fun hf => h.2.2.2 hf⟩
    | methodCall target => exact schedInv_method target o h
    | runDeferred =>
      cases hs : o.job_source with
      | none => exact h
      | some d =>
        cases d with
        | startCb => exact schedInv_start_job_cb_ctx o h hab hs
        | finishCb => exact schedInv_finish_job_cb_ctx o h hab hs
    | deliverReply i e =>
      dsimp only
      cases hp : o.pending[i]? with
      | none => exact h
      | some jid =>
        exact schedInv_job_isolate_all_cb jid _
          ⟨h.1, h.2.1, h.2.2.1, fun hf => h.2.2.2 hf⟩

/-- SchedInv holds at the zero-initialized startup state. -/
lemma schedInv_init : SchedInv init := by
  refine ⟨?_, ?_, ?_, ?_⟩
  · intro x hx
    simp [projJobs, init] at hx
  · intro x hx
    simp [projJobs, init] at hx
  · intro jid hc
    simp [init] at hc
  · intro _ hs
    simp [init] at hs

/-- C4: in every reachable state at most one job is Running and that job
is the one current_job designates; concretely, with one registered node,
enqueueing a second IsolateAll while the first runs leaves the scheduler
alone (schedule_job is a no-op: no transition task is armed), the second
job stays Waiting while the first is Running and current, and after the
reply of the first is delivered and the deferred finish runs, no
start-hook activity of job 2 (its State signal or an Isolate dispatch
with its target) appears in the trace before the JobRemoved signal of
job 1, which by then is removed from the queue while job 2 is the
Running current job. -/
theorem C4_single_running_job :
    (∀ acts : List Act, runningIsCurrent (run init acts) ∧
        atMostOneRunning (run init acts)) ∧
    ((run init [Act.accept, Act.register 0 "A", Act.methodCall "t1",
          Act.runDeferred, Act.methodCall "t2"]).job_source = none ∧
      (run init [Act.accept, Act.register 0 "A", Act.methodCall "t1",
          Act.runDeferred, Act.methodCall "t2"]).jobs.map
          (fun j => (j.id, j.state)) =
        [(1, JobState.running), (2, JobState.waiting)] ∧
      (run init [Act.accept, Act.register 0 "A", Act.methodCall "t1",
          Act.runDeferred, Act.methodCall "t2"]).current_job = some 1) ∧
    (((run init [Act.accept, Act.register 0 "A", Act.methodCall "t1",
          Act.runDeferred, Act.methodCall "t2", Act.deliverReply 0 false,
          Act.runDeferred]).events.takeWhile
            (fun e => !(isRemovedOf 1 e))).all
          (fun e => !(isStartOf (jobsPath 2) "t2" e)) = true ∧
      (run init [Act.accept, Act.register 0 "A", Act.methodCall "t1",
          Act.runDeferred, Act.methodCall "t2", Act.deliverReply 0 false,
          Act.runDeferred]).events.any (isRemovedOf 1) = true ∧
      (run init [Act.accept, Act.register 0 "A", Act.methodCall "t1",
          Act.runDeferred, Act.methodCall "t2", Act.deliverReply 0 false,
          Act.runDeferred]).events.any (isStartOf (jobsPath 2) "t2") = true ∧
      (run init [Act.accept, Act.register 0 "A", Act.methodCall "t1",
          Act.runDeferred, Act.methodCall "t2", Act.deliverReply 0 false,
          Act.runDeferred]).jobs.all (fun j => j.id != 1) = true ∧
      (run init [Act.accept, Act.register 0 "A", Act.methodCall "t1",
          Act.runDeferred, Act.methodCall "t2", Act.deliverReply 0 false,
          Act.runDeferred]).current_job = some 2) := by
  refine ⟨?_, by decide, by decide⟩
  intro acts
  have h := run_preserve SchedInv schedInv_step acts init schedInv_init
  exact ⟨runningIsCurrent_of_runCurP _ h.2.1, atMostOne_of_tailWaitingP _ h.1⟩
